import Mathlib

/-!
# Shallow embedding of the GestionStock inventory core

This file embeds the inventory transaction engine of the repository
(`services/stock_service.py` running over the SQLite schema declared in
`database.py`) and settles the specification claims about it.

Modelling conventions:
* A database state (`DB`) carries the rows of the tables touched by the
  claims (`products`, `stock_movements`, `purchases`, `purchase_lines`,
  `sales`, `sale_lines`) as lists in insertion order, the id sets of the
  referenced master-data tables (`categories`, `suppliers`, `customers`),
  and the AUTOINCREMENT counters for the three tables whose fresh ids the
  code reads back (`last_insert_rowid` / `cursor.lastrowid`).
* SQLite `REAL` money amounts are modelled as `Rat`; `INTEGER` columns as
  `Int` (ids as `Nat`).
* Each Python function that commits work becomes a Lean function on `DB`.
  A raised exception (`ValueError`, `sqlite3.IntegrityError` escaping the
  function) makes the `finally: conn.close()` drop the uncommitted
  transaction, so the net effect is "error, state unchanged": such
  functions return `Except String DB` (or `Option DB` where the source
  catches `IntegrityError` and returns `False`), and an error result
  carries no state — the caller keeps the unchanged input state.
* `DATE(date)` values are modelled as `Int` day numbers; the current day
  (`DATE('now')`) is passed explicitly as a `now` parameter.
-/

/-- A row of the `products` table (columns used by the service layer). -/
structure Product where
  id : Nat
  name : String
  sku : String
  category_id : Option Nat
  description : String
  purchase_price : Rat
  selling_price : Rat
  quantity : Int
  min_quantity : Int
deriving DecidableEq

/-- A row of the `stock_movements` table: `quantity` is the signed delta. -/
structure Movement where
  product_id : Nat
  quantity : Int
  movement_type : String
  note : String
deriving DecidableEq

/-- A row of the `purchases` table (`date` is the calendar-day number). -/
structure Purchase where
  id : Nat
  supplier_id : Option Nat
  date : Int
  total_amount : Rat
deriving DecidableEq

/-- A row of the `purchase_lines` table. -/
structure PurchaseLine where
  purchase_id : Nat
  product_id : Nat
  quantity : Int
  price : Rat
deriving DecidableEq

/-- A row of the `sales` table. -/
structure Sale where
  id : Nat
  customer_id : Option Nat
  date : Int
  payment_method : String
  total_amount : Rat
deriving DecidableEq

/-- A row of the `sale_lines` table. -/
structure SaleLine where
  sale_id : Nat
  product_id : Nat
  quantity : Int
  price : Rat
deriving DecidableEq

/-- The database state: table contents in insertion order, the id sets of
the master-data tables referenced through foreign keys, and the
AUTOINCREMENT counters whose values the code reads back. -/
structure DB where
  products : List Product
  movements : List Movement
  purchases : List Purchase
  purchase_lines : List PurchaseLine
  sales : List Sale
  sale_lines : List SaleLine
  categories : List Nat
  suppliers : List Nat
  customers : List Nat
  next_product_id : Nat
  next_purchase_id : Nat
  next_sale_id : Nat
deriving DecidableEq

/-- `SELECT ... FROM products WHERE id=?` followed by `fetchone()`:
the first row whose `id` matches. -/
def getProduct : List Product → Nat → Option Product
  | [], _ => none
  | p :: ps, pid => if p.id = pid then some p else getProduct ps pid

/-- `FOREIGN KEY (category_id) REFERENCES categories(id)`: true when the
optional reference is present but dangling. -/
def categoryMissing (db : DB) : Option Nat → Bool
  | none => false
  | some c => !(db.categories.contains c)

/-- `FOREIGN KEY (supplier_id) REFERENCES suppliers(id)`. -/
def supplierMissing (db : DB) : Option Nat → Bool
  | none => false
  | some s => !(db.suppliers.contains s)

/-- `FOREIGN KEY (customer_id) REFERENCES customers(id)`. -/
def customerMissing (db : DB) : Option Nat → Bool
  | none => false
  | some c => !(db.customers.contains c)

/-- `add_product`: inserts the row (fresh AUTOINCREMENT id), and when the
starting `quantity` is truthy (nonzero) additionally logs an `IN`
movement "Initial stock" for the new row.  A `sqlite3.IntegrityError`
(duplicate `sku`, dangling `category_id`) is caught and `False` is
returned with nothing committed: modelled as `none`. -/
def add_product (db : DB) (name sku : String) (category_id : Option Nat)
    (description : String) (purchase_price selling_price : Rat)
    (quantity min_quantity : Int) : Option DB :=
  if db.products.any (fun p => p.sku == sku) then none
  else if categoryMissing db category_id then none
  else
    let pid := db.next_product_id
    let db1 : DB := { db with
      products := db.products ++
        [⟨pid, name, sku, category_id, description,
          purchase_price, selling_price, quantity, min_quantity⟩],
      next_product_id := pid + 1 }
    if quantity ≠ 0 then
      some { db1 with
        movements := db1.movements ++ [⟨pid, quantity, "IN", "Initial stock"⟩] }
    else
      some db1

/-- `update_product`: a single `UPDATE products SET ... WHERE id=?` that
overwrites every non-id column of the matching row; no movement is
logged.  An uncaught `IntegrityError` (duplicate `sku` on another row,
dangling `category_id`) rolls the transaction back. -/
def update_product (db : DB) (product_id : Nat) (name sku : String)
    (category_id : Option Nat) (description : String)
    (purchase_price selling_price : Rat) (quantity min_quantity : Int) :
    Except String DB :=
  if db.products.any (fun p => p.sku == sku && !(p.id == product_id)) then
    .error "UNIQUE constraint failed: products.sku"
  else if categoryMissing db category_id then
    .error "FOREIGN KEY constraint failed"
  else
    .ok { db with
      products := db.products.map (fun p =>
        if p.id = product_id then
          ⟨product_id, name, sku, category_id, description,
           purchase_price, selling_price, quantity, min_quantity⟩
        else p) }

/-- `adjust_stock`: `UPDATE products SET quantity = quantity + ? WHERE id=?`
then `_log_movement(..., "ADJUST", note)` in one transaction.  When the
product id does not exist the movement insert violates its foreign key and
the whole transaction rolls back. -/
def adjust_stock (db : DB) (product_id : Nat) (quantity_delta : Int)
    (note : String) : Except String DB :=
  match getProduct db.products product_id with
  | none => .error "FOREIGN KEY constraint failed"
  | some _ => .ok { db with
      products := db.products.map (fun p =>
        if p.id = product_id then { p with quantity := p.quantity + quantity_delta }
        else p),
      movements := db.movements ++ [⟨product_id, quantity_delta, "ADJUST", note⟩] }

/-- The per-line loop of `record_purchase`: for each `(product_id, qty, price)`
in input order, insert a `purchase_lines` row, run
`UPDATE products SET quantity = quantity + ?, purchase_price = ? WHERE id=?`,
log an `IN` movement of `+qty`, and accumulate `qty * price` into the
running total.  A dangling `product_id` makes the `purchase_lines` insert
violate its foreign key, raising out of the loop. -/
def purchaseLoop (purchase_id : Nat) :
    DB → List (Nat × Int × Rat) → Except String (DB × Rat)
  | db, [] => .ok (db, 0)
  | db, (product_id, qty, price) :: rest =>
    match getProduct db.products product_id with
    | none => .error "FOREIGN KEY constraint failed"
    | some _ =>
      let db1 : DB := { db with
        purchase_lines := db.purchase_lines ++ [⟨purchase_id, product_id, qty, price⟩],
        products := db.products.map (fun p =>
          if p.id = product_id then
            { p with quantity := p.quantity + qty, purchase_price := price }
          else p),
        movements := db.movements ++
          [⟨product_id, qty, "IN", "Purchase #" ++ toString purchase_id⟩] }
      match purchaseLoop purchase_id db1 rest with
      | .ok (db2, t) => .ok (db2, qty * price + t)
      | .error e => .error e

/-- `UPDATE purchases SET total_amount=? WHERE id=?`. -/
def setPurchaseTotal (ps : List Purchase) (purchase_id : Nat) (t : Rat) :
    List Purchase :=
  ps.map (fun h => if h.id = purchase_id then { h with total_amount := t } else h)

/-- `record_purchase(supplier_id, items)`: insert the header, run the line
loop, then store the accumulated total on the header and commit; any
exception rolls everything back. -/
def record_purchase (db : DB) (now : Int) (supplier_id : Option Nat)
    (items : List (Nat × Int × Rat)) : Except String (DB × Nat) :=
  if supplierMissing db supplier_id then .error "FOREIGN KEY constraint failed"
  else
    let purchase_id := db.next_purchase_id
    let db0 : DB := { db with
      purchases := db.purchases ++ [⟨purchase_id, supplier_id, now, 0⟩],
      next_purchase_id := purchase_id + 1 }
    match purchaseLoop purchase_id db0 items with
    | .ok (db1, total) =>
      .ok ({ db1 with
        purchases := setPurchaseTotal db1.purchases purchase_id total }, purchase_id)
    | .error e => .error e

/-- The `# ensure stock availability` loop of `record_sale`: for every line,
fetch the product row and raise `ValueError` when it is absent or its
on-hand quantity is below the requested quantity.  Runs before any write. -/
def checkStock (db : DB) : List (Nat × Int × Rat) → Except String Unit
  | [] => .ok ()
  | (product_id, qty, _) :: rest =>
    match getProduct db.products product_id with
    | none => .error ("Insufficient stock for product id " ++ toString product_id)
    | some p =>
      if p.quantity < qty then
        .error ("Insufficient stock for product id " ++ toString product_id)
      else checkStock db rest

/-- The apply loop of `record_sale`: for each line in input order, insert a
`sale_lines` row, run `UPDATE products SET quantity = quantity - ? WHERE id=?`,
log an `OUT` movement of `-qty`, and accumulate `qty * price`.  Every
referenced product exists (validation already resolved it), so no foreign
key can fire. -/
def saleLoop (sale_id : Nat) : DB → List (Nat × Int × Rat) → DB × Rat
  | db, [] => (db, 0)
  | db, (product_id, qty, price) :: rest =>
    let db1 : DB := { db with
      sale_lines := db.sale_lines ++ [⟨sale_id, product_id, qty, price⟩],
      products := db.products.map (fun p =>
        if p.id = product_id then { p with quantity := p.quantity - qty } else p),
      movements := db.movements ++
        [⟨product_id, -qty, "OUT", "Sale #" ++ toString sale_id⟩] }
    let (db2, t) := saleLoop sale_id db1 rest
    (db2, qty * price + t)

/-- `UPDATE sales SET total_amount=? WHERE id=?`. -/
def setSaleTotal (ss : List Sale) (sale_id : Nat) (t : Rat) : List Sale :=
  ss.map (fun h => if h.id = sale_id then { h with total_amount := t } else h)

/-- `record_sale(customer_id, payment_method, items)`: validate every line
against current stock, then insert the header, apply every line, store the
total and commit; a validation failure or an escaping integrity error
rolls everything back. -/
def record_sale (db : DB) (now : Int) (customer_id : Option Nat)
    (payment_method : String) (items : List (Nat × Int × Rat)) :
    Except String (DB × Nat) :=
  match checkStock db items with
  | .error e => .error e
  | .ok _ =>
    if customerMissing db customer_id then .error "FOREIGN KEY constraint failed"
    else
      let sale_id := db.next_sale_id
      let db0 : DB := { db with
        sales := db.sales ++ [⟨sale_id, customer_id, now, payment_method, 0⟩],
        next_sale_id := sale_id + 1 }
      let (db1, total) := saleLoop sale_id db0 items
      .ok ({ db1 with sales := setSaleTotal db1.sales sale_id total }, sale_id)

/-- `low_stock()`:
`SELECT * FROM products WHERE quantity <= min_quantity ORDER BY quantity`. -/
def low_stock (db : DB) : List Product :=
  (db.products.filter (fun p => p.quantity ≤ p.min_quantity)).mergeSort
    (fun a b => a.quantity ≤ b.quantity)

/-- Sum of `total_amount` over a list of sale headers (`SUM(total_amount)`). -/
def sumSaleTotals (ss : List Sale) : Rat :=
  (ss.map (fun s => s.total_amount)).sum

/-- Sum of `total_amount` over a list of purchase headers. -/
def sumPurchaseTotals (ps : List Purchase) : Rat :=
  (ps.map (fun h => h.total_amount)).sum

/-- `sales_totals(days)`: sale headers with `DATE(date) >= DATE('now', '-days day')`,
grouped by calendar date, summed, ascending by date. -/
def sales_totals (db : DB) (now days : Int) : List (Int × Rat) :=
  let window := db.sales.filter (fun s => now - days ≤ s.date)
  let dates := ((window.map (fun s => s.date)).dedup).mergeSort (fun a b => a ≤ b)
  dates.map (fun d => (d, sumSaleTotals (window.filter (fun s => s.date = d))))

/-- `purchase_totals(days)`: purchase headers with
`DATE(date) >= DATE('now', '-days day')`, grouped by calendar date, summed,
ascending by date. -/
def purchase_totals (db : DB) (now days : Int) : List (Int × Rat) :=
  let window := db.purchases.filter (fun h => now - days ≤ h.date)
  let dates := ((window.map (fun h => h.date)).dedup).mergeSort (fun a b => a ≤ b)
  dates.map (fun d => (d, sumPurchaseTotals (window.filter (fun h => h.date = d))))

/-! ## Derived quantities used to state the claims -/

/-- Net quantity a line list carries for one product id: the sum of the
`qty` components of all lines referencing that product. -/
def lineQty (pid : Nat) : List (Nat × Int × Rat) → Int
  | [] => 0
  | it :: rest => (if it.1 = pid then it.2.1 else 0) + lineQty pid rest

/-- The unit cost of the last line in the list referencing the product,
if any (the price whose write wins in `record_purchase`). -/
def lastCost (pid : Nat) : List (Nat × Int × Rat) → Option Rat
  | [] => none
  | it :: rest =>
    match lastCost pid rest with
    | some c => some c
    | none => if it.1 = pid then some it.2.2 else none

/-- `sum(qty * price)` over a line list, in loop-accumulation order. -/
def linesTotal : List (Nat × Int × Rat) → Rat
  | [] => 0
  | (_, qty, price) :: rest => qty * price + linesTotal rest

/-- Signed sum of the recorded movement deltas for one product. -/
def sumDeltas (pid : Nat) : List Movement → Int
  | [] => 0
  | m :: ms => (if m.product_id = pid then m.quantity else 0) + sumDeltas pid ms

/-- The stock check of `record_sale` on one line, as a Boolean: true when
the product is missing or its on-hand quantity is below the line's `qty`. -/
def failsAt (db : DB) (it : Nat × Int × Rat) : Bool :=
  match getProduct db.products it.1 with
  | none => true
  | some p => p.quantity < it.2.1

/-- The first line of the list that fails the stock check, if any. -/
def offendingLine (db : DB) (items : List (Nat × Int × Rat)) :
    Option (Nat × Int × Rat) :=
  items.find? (failsAt db)

/-- Every product row has non-negative on-hand quantity. -/
def allNonneg (db : DB) : Prop := ∀ p ∈ db.products, 0 ≤ p.quantity

instance (db : DB) : Decidable (allNonneg db) :=
  inferInstanceAs (Decidable (∀ p ∈ db.products, 0 ≤ p.quantity))

/-- The movement log fully accounts for every product's on-hand quantity:
each product's quantity equals the signed sum of its movement deltas. -/
def movementsConsistent (db : DB) : Prop :=
  ∀ p ∈ db.products, p.quantity = sumDeltas p.id db.movements

instance (db : DB) : Decidable (movementsConsistent db) :=
  inferInstanceAs (Decidable (∀ p ∈ db.products, p.quantity = sumDeltas p.id db.movements))

instance {e a : Type} [DecidableEq e] [DecidableEq a] : DecidableEq (Except e a) := fun x y =>
  match x, y with
  | .ok v, .ok w =>
    if h : v = w then isTrue (by rw [h]) else isFalse (fun hc => h (by injection hc))
  | .error v, .error w =>
    if h : v = w then isTrue (by rw [h]) else isFalse (fun hc => h (by injection hc))
  | .ok _, .error _ => isFalse (fun hc => Except.noConfusion hc)
  | .error _, .ok _ => isFalse (fun hc => Except.noConfusion hc)

/-! ## Basic lemmas about the row-access helpers -/

theorem getProduct_some {ps : List Product} {pid : Nat} {p : Product}
    (h : getProduct ps pid = some p) : p ∈ ps ∧ p.id = pid := by
  induction ps with
  | nil => simp [getProduct] at h
  | cons q qs ih =>
    by_cases hq : q.id = pid
    · simp [getProduct, hq] at h
      subst h
      exact ⟨List.mem_cons_self q qs, hq⟩
    · simp [getProduct, hq] at h
      rcases ih h with ⟨hm, hid⟩
      exact ⟨List.mem_cons_of_mem q hm, hid⟩

theorem getProduct_isSome {ps : List Product} {pid : Nat}
    (h : (getProduct ps pid).isSome) : ∃ p ∈ ps, p.id = pid := by
  rcases Option.isSome_iff_exists.mp h with ⟨p, hp⟩
  rcases getProduct_some hp with ⟨hm, hid⟩
  exact ⟨p, hm, hid⟩

theorem getProduct_isSome_of_mem {ps : List Product} {p : Product}
    (h : p ∈ ps) : (getProduct ps p.id).isSome := by
  induction ps with
  | nil => simp at h
  | cons q qs ih =>
    rcases List.mem_cons.mp h with rfl | hm
    · simp [getProduct]
    · by_cases hq : q.id = p.id
      · simp [getProduct, hq]
      · simpa [getProduct, hq] using ih hm

theorem getProduct_of_mem_nodup {ps : List Product} {p : Product}
    (hnd : (ps.map (fun q => q.id)).Nodup) (h : p ∈ ps) :
    getProduct ps p.id = some p := by
  induction ps with
  | nil => simp at h
  | cons q qs ih =>
    simp only [List.map_cons, List.nodup_cons] at hnd
    rcases List.mem_cons.mp h with rfl | hm
    · simp [getProduct]
    · have hne : q.id ≠ p.id := by
        intro he
        exact hnd.1 (he ▸ List.mem_map_of_mem (fun r => r.id) hm)
      simp [getProduct, hne]
      exact ih hnd.2 hm

theorem getProduct_map {f : Product → Product} (hf : ∀ p, (f p).id = p.id)
    (ps : List Product) (pid : Nat) :
    getProduct (ps.map f) pid = (getProduct ps pid).map f := by
  induction ps with
  | nil => simp [getProduct]
  | cons q qs ih =>
    by_cases hq : q.id = pid
    · simp [getProduct, hf, hq]
    · simp [getProduct, hf, hq, ih]

theorem sumDeltas_append (pid : Nat) (a b : List Movement) :
    sumDeltas pid (a ++ b) = sumDeltas pid a + sumDeltas pid b := by
  induction a with
  | nil => simp [sumDeltas]
  | cons m ms ih => simp [sumDeltas, ih]; ring

theorem sumDeltas_eq_zero {pid : Nat} {ms : List Movement}
    (h : ∀ m ∈ ms, m.product_id ≠ pid) : sumDeltas pid ms = 0 := by
  induction ms with
  | nil => rfl
  | cons m ms ih =>
    have h1 : m.product_id ≠ pid := h m (List.mem_cons_self m ms)
    simp [sumDeltas, h1]
    exact ih (fun x hx => h x (List.mem_cons_of_mem m hx))

theorem sumDeltas_map_pos (pid : Nat) (mt note : String)
    (items : List (Nat × Int × Rat)) :
    sumDeltas pid (items.map (fun it => ⟨it.1, it.2.1, mt, note⟩)) =
      lineQty pid items := by
  induction items with
  | nil => rfl
  | cons it rest ih =>
    by_cases h : it.1 = pid <;> simp [sumDeltas, lineQty, h, ih]

theorem sumDeltas_map_neg (pid : Nat) (mt note : String)
    (items : List (Nat × Int × Rat)) :
    sumDeltas pid (items.map (fun it => ⟨it.1, -it.2.1, mt, note⟩)) =
      -(lineQty pid items) := by
  induction items with
  | nil => rfl
  | cons it rest ih =>
    by_cases h : it.1 = pid
    · simp [sumDeltas, lineQty, h, ih]
      ring
    · simp [sumDeltas, lineQty, h, ih]

theorem lineQty_eq_zero {pid : Nat} {items : List (Nat × Int × Rat)}
    (h : ∀ it ∈ items, it.1 ≠ pid) : lineQty pid items = 0 := by
  induction items with
  | nil => rfl
  | cons it rest ih =>
    have h1 : it.1 ≠ pid := h it (List.mem_cons_self it rest)
    simp [lineQty, h1]
    exact ih (fun x hx => h x (List.mem_cons_of_mem it hx))

theorem lineQty_of_nodup {pid : Nat} {items : List (Nat × Int × Rat)}
    {it : Nat × Int × Rat}
    (hnd : (items.map (fun x => x.1)).Nodup) (hm : it ∈ items) (hp : it.1 = pid) :
    lineQty pid items = it.2.1 := by
  induction items with
  | nil => simp at hm
  | cons hd rest ih =>
    simp only [List.map_cons, List.nodup_cons] at hnd
    rcases List.mem_cons.mp hm with rfl | hmem
    · have hz : ∀ x ∈ rest, x.1 ≠ pid := by
        intro x hx he
        exact hnd.1 (hp ▸ he ▸ List.mem_map_of_mem (fun y => y.1) hx)
      simp [lineQty, hp, lineQty_eq_zero hz]
    · have hne : hd.1 ≠ pid := by
        intro he
        exact hnd.1 (he ▸ hp ▸ List.mem_map_of_mem (fun y => y.1) hmem)
      simp [lineQty, hne]
      exact ih hnd.2 hmem

/-! ## Closed forms of the transaction loops -/

theorem saleLoop_eq (sid : Nat) (db : DB) (items : List (Nat × Int × Rat)) :
    saleLoop sid db items =
      ({ db with
         sale_lines := db.sale_lines ++
           items.map (fun it => ⟨sid, it.1, it.2.1, it.2.2⟩),
         products := db.products.map (fun p =>
           { p with quantity := p.quantity - lineQty p.id items }),
         movements := db.movements ++
           items.map (fun it => ⟨it.1, -it.2.1, "OUT", "Sale #" ++ toString sid⟩) },
       linesTotal items) := by
  induction items generalizing db with
  | nil =>
    have hp : db.products.map
        (fun p => { p with quantity := p.quantity - lineQty p.id [] }) = db.products := by
      apply List.map_id''
      intro p
      simp [lineQty]
    simp [saleLoop, linesTotal, hp]
  | cons it rest ih =>
    obtain ⟨pid, qty, price⟩ := it
    simp only [saleLoop]
    rw [ih]
    refine congrArg₂ (fun a b => (a, b)) ?_ ?_
    · simp only [DB.mk.injEq]
      refine ⟨?_, ?_, trivial, trivial, trivial, ?_, trivial, trivial, trivial, trivial, trivial, trivial⟩
      · rw [List.map_map]
        apply List.map_congr_left
        intro p _
        obtain ⟨i, nm, sk, cat, d, pp, sp, q, mq⟩ := p
        by_cases h : i = pid
        · subst h
          simp only [Function.comp, if_pos rfl]
          simp [lineQty]
          omega
        · simp only [Function.comp, if_neg h]
          simp [lineQty, show ¬(pid = i) from fun he => h he.symm]
      · simp [List.append_assoc]
      · simp [List.append_assoc]
    · simp [linesTotal]

theorem purchaseLoop_exists_of_ok {hid : Nat} {db : DB}
    {items : List (Nat × Int × Rat)} {x : DB × Rat}
    (h : purchaseLoop hid db items = .ok x) :
    ∀ it ∈ items, (getProduct db.products it.1).isSome := by
  induction items generalizing db x with
  | nil => simp
  | cons it rest ih =>
    obtain ⟨pid, qty, price⟩ := it
    intro it2 hm
    cases hg : getProduct db.products pid with
    | none => rw [purchaseLoop] at h; simp [hg] at h
    | some p0 =>
      rcases List.mem_cons.mp hm with rfl | hmem
      · simp [hg]
      · rw [purchaseLoop] at h
        simp only [hg] at h
        cases hrec : purchaseLoop hid { db with
            purchase_lines := db.purchase_lines ++ [⟨hid, pid, qty, price⟩],
            products := db.products.map (fun p =>
              if p.id = pid then
                { p with quantity := p.quantity + qty, purchase_price := price }
              else p),
            movements := db.movements ++
              [⟨pid, qty, "IN", "Purchase #" ++ toString hid⟩] } rest with
        | error e => rw [hrec] at h; simp at h
        | ok y =>
          have h2 := ih hrec it2 hmem
          rw [@getProduct_map (fun p =>
              if p.id = pid then
                { p with quantity := p.quantity + qty, purchase_price := price }
              else p)
            (by intro p; by_cases hp : p.id = pid <;> simp [hp]) _ _] at h2
          cases hgp : getProduct db.products it2.1 with
          | none => rw [hgp] at h2; simp at h2
          | some _ => simp

theorem purchaseLoop_ok (hid : Nat) (db : DB) (items : List (Nat × Int × Rat))
    (hex : ∀ it ∈ items, (getProduct db.products it.1).isSome) :
    purchaseLoop hid db items =
      .ok ({ db with
         purchase_lines := db.purchase_lines ++
           items.map (fun it => ⟨hid, it.1, it.2.1, it.2.2⟩),
         products := db.products.map (fun p =>
           { p with quantity := p.quantity + lineQty p.id items,
                    purchase_price := (lastCost p.id items).getD p.purchase_price }),
         movements := db.movements ++
           items.map (fun it => ⟨it.1, it.2.1, "IN", "Purchase #" ++ toString hid⟩) },
       linesTotal items) := by
  induction items generalizing db with
  | nil =>
    have hp : db.products.map
        (fun p => { p with quantity := p.quantity + lineQty p.id [],
                           purchase_price := (lastCost p.id []).getD p.purchase_price })
        = db.products := by
      apply List.map_id''
      intro p
      simp [lineQty, lastCost]
    simp [purchaseLoop, linesTotal, hp]
  | cons it rest ih =>
    obtain ⟨pid, qty, price⟩ := it
    obtain ⟨p0, hp0⟩ := Option.isSome_iff_exists.mp
      (hex (pid, qty, price) (List.mem_cons_self _ _))
    rw [purchaseLoop]
    simp only [hp0]
    have hex2 : ∀ it ∈ rest, (getProduct ((db.products.map (fun p =>
        if p.id = pid then
          { p with quantity := p.quantity + qty, purchase_price := price }
        else p))) it.1).isSome := by
      intro it2 hm
      rw [getProduct_map (by intro p; by_cases hp : p.id = pid <;> simp [hp])]
      have h2 := hex it2 (List.mem_cons_of_mem _ hm)
      cases hgp : getProduct db.products it2.1 with
      | none => rw [hgp] at h2; simp at h2
      | some _ => simp
    rw [ih _ hex2]
    refine congrArg Except.ok (congrArg₂ (fun a b => (a, b)) ?_ ?_)
    · simp only [DB.mk.injEq]
      refine ⟨?_, ?_, trivial, ?_, trivial, trivial, trivial, trivial, trivial,
        trivial, trivial, trivial⟩
      · rw [List.map_map]
        apply List.map_congr_left
        intro p _
        obtain ⟨i, nm, sk, cat, d, pp, sp, q, mq⟩ := p
        by_cases h : i = pid
        · subst h
          simp only [Function.comp, if_pos rfl]
          cases hc : lastCost i rest with
          | none => simp [lineQty, lastCost, hc]; omega
          | some c => simp [lineQty, lastCost, hc]; omega
        · simp only [Function.comp, if_neg h]
          cases hc : lastCost i rest with
          | none =>
            simp [lineQty, lastCost, hc, show ¬(pid = i) from fun he => h he.symm]
          | some c =>
            simp [lineQty, lastCost, hc, show ¬(pid = i) from fun he => h he.symm]
      · simp [List.append_assoc]
      · simp [List.append_assoc]
    · simp [linesTotal]

/-! ## The validation phase of `record_sale` -/

theorem checkStock_ok_bound {db : DB} {items : List (Nat × Int × Rat)}
    (h : checkStock db items = .ok ()) :
    ∀ it ∈ items, ∃ p, getProduct db.products it.1 = some p ∧ it.2.1 ≤ p.quantity := by
  induction items with
  | nil => simp
  | cons it rest ih =>
    obtain ⟨pid, qty, pr⟩ := it
    rw [checkStock] at h
    cases hg : getProduct db.products pid with
    | none => rw [hg] at h; exact absurd h (by simp)
    | some p =>
      rw [hg] at h
      simp only [] at h
      by_cases hlt : p.quantity < qty
      · rw [if_pos hlt] at h; exact absurd h (by simp)
      · rw [if_neg hlt] at h
        intro it2 hm
        rcases List.mem_cons.mp hm with rfl | hmem
        · exact ⟨p, hg, not_lt.mp hlt⟩
        · exact ih h it2 hmem

theorem checkStock_error_of_offending {db : DB} {items : List (Nat × Int × Rat)}
    {it0 : Nat × Int × Rat} (h : offendingLine db items = some it0) :
    it0 ∈ items ∧ failsAt db it0 = true ∧
      checkStock db items =
        .error ("Insufficient stock for product id " ++ toString it0.1) := by
  induction items with
  | nil => simp [offendingLine] at h
  | cons hd rest ih =>
    by_cases hf : failsAt db hd
    · rw [offendingLine, List.find?_cons_of_pos _ hf] at h
      injection h with h
      subst h
      refine ⟨List.mem_cons_self _ _, hf, ?_⟩
      obtain ⟨pid, qty, pr⟩ := hd
      cases hg : getProduct db.products pid with
      | none => simp [checkStock, hg]
      | some p =>
        have hlt : p.quantity < qty := by simpa [failsAt, hg] using hf
        simp [checkStock, hg, hlt]
    · rw [offendingLine, List.find?_cons_of_neg _ hf] at h
      rcases ih h with ⟨hm, hfa, hcs⟩
      refine ⟨List.mem_cons_of_mem _ hm, hfa, ?_⟩
      obtain ⟨pid, qty, pr⟩ := hd
      cases hg : getProduct db.products pid with
      | none => simp [failsAt, hg] at hf
      | some p =>
        have hnlt : ¬(p.quantity < qty) := by simpa [failsAt, hg] using hf
        simp [checkStock, hg, hnlt, hcs]

/-! ## Header-total writeback -/

theorem setPurchaseTotal_append {ps : List Purchase} {hid : Nat} {t : Rat}
    {hdr : Purchase} (h : ∀ x ∈ ps, x.id ≠ hid) (hh : hdr.id = hid) :
    setPurchaseTotal (ps ++ [hdr]) hid t = ps ++ [{ hdr with total_amount := t }] := by
  unfold setPurchaseTotal
  rw [List.map_append]
  refine congrArg₂ (fun a b => a ++ b) ?_ ?_
  · have h2 : ps.map (fun x => if x.id = hid then { x with total_amount := t } else x)
        = ps.map id := List.map_congr_left (fun x hx => by simp [h x hx])
    rw [h2, List.map_id]
  · simp [hh]

theorem setSaleTotal_append {ss : List Sale} {sid : Nat} {t : Rat}
    {hdr : Sale} (h : ∀ x ∈ ss, x.id ≠ sid) (hh : hdr.id = sid) :
    setSaleTotal (ss ++ [hdr]) sid t = ss ++ [{ hdr with total_amount := t }] := by
  unfold setSaleTotal
  rw [List.map_append]
  refine congrArg₂ (fun a b => a ++ b) ?_ ?_
  · have h2 : ss.map (fun x => if x.id = sid then { x with total_amount := t } else x)
        = ss.map id := List.map_congr_left (fun x hx => by simp [h x hx])
    rw [h2, List.map_id]
  · simp [hh]

/-! ## End-to-end characterizations of the transaction entry points -/

theorem record_sale_eq (db : DB) (now : Int) (c : Option Nat) (pm : String)
    (items : List (Nat × Int × Rat))
    (hchk : checkStock db items = .ok ())
    (hcust : customerMissing db c = false)
    (hfresh : ∀ s ∈ db.sales, s.id ≠ db.next_sale_id) :
    record_sale db now c pm items =
      .ok ({ db with
        sales := db.sales ++ [⟨db.next_sale_id, c, now, pm, linesTotal items⟩],
        sale_lines := db.sale_lines ++
          items.map (fun it => ⟨db.next_sale_id, it.1, it.2.1, it.2.2⟩),
        products := db.products.map (fun p =>
          { p with quantity := p.quantity - lineQty p.id items }),
        movements := db.movements ++
          items.map (fun it =>
            ⟨it.1, -it.2.1, "OUT", "Sale #" ++ toString db.next_sale_id⟩),
        next_sale_id := db.next_sale_id + 1 },
      db.next_sale_id) := by
  rw [record_sale, hchk]
  simp only [hcust, Bool.false_eq_true, if_false]
  rw [saleLoop_eq]
  simp only []
  rw [setSaleTotal_append hfresh rfl]

theorem record_sale_ok_fields {db : DB} {now : Int} {c : Option Nat} {pm : String}
    {items : List (Nat × Int × Rat)} {db2 : DB} {sid : Nat}
    (h : record_sale db now c pm items = .ok (db2, sid)) :
    checkStock db items = .ok () ∧
    sid = db.next_sale_id ∧
    db2.products = db.products.map (fun p =>
      { p with quantity := p.quantity - lineQty p.id items }) ∧
    db2.movements = db.movements ++
      items.map (fun it =>
        ⟨it.1, -it.2.1, "OUT", "Sale #" ++ toString db.next_sale_id⟩) ∧
    db2.next_product_id = db.next_product_id := by
  rw [record_sale] at h
  cases hchk : checkStock db items with
  | error e => rw [hchk] at h; exact absurd h (by simp)
  | ok u =>
    cases u
    rw [hchk] at h
    by_cases hcust : customerMissing db c
    · simp only [hcust, if_true] at h
      exact absurd h (by simp)
    · simp only [eq_false_of_ne_true hcust, Bool.false_eq_true, if_false] at h
      rw [saleLoop_eq] at h
      simp only [] at h
      injection h with h
      injection h with h1 h2
      subst h1
      refine ⟨rfl, h2.symm, by simp, by simp, by simp⟩

theorem record_purchase_eq (db : DB) (now : Int) (sup : Option Nat)
    (items : List (Nat × Int × Rat))
    (hsup : supplierMissing db sup = false)
    (hex : ∀ it ∈ items, (getProduct db.products it.1).isSome)
    (hfresh : ∀ x ∈ db.purchases, x.id ≠ db.next_purchase_id) :
    record_purchase db now sup items =
      .ok ({ db with
        purchases := db.purchases ++
          [⟨db.next_purchase_id, sup, now, linesTotal items⟩],
        purchase_lines := db.purchase_lines ++
          items.map (fun it => ⟨db.next_purchase_id, it.1, it.2.1, it.2.2⟩),
        products := db.products.map (fun p =>
          { p with quantity := p.quantity + lineQty p.id items,
                   purchase_price := (lastCost p.id items).getD p.purchase_price }),
        movements := db.movements ++
          items.map (fun it =>
            ⟨it.1, it.2.1, "IN", "Purchase #" ++ toString db.next_purchase_id⟩),
        next_purchase_id := db.next_purchase_id + 1 },
      db.next_purchase_id) := by
  rw [record_purchase]
  simp only [hsup, Bool.false_eq_true, if_false]
  have h0 := purchaseLoop_ok db.next_purchase_id { db with
      purchases := db.purchases ++ [⟨db.next_purchase_id, sup, now, 0⟩],
      next_purchase_id := db.next_purchase_id + 1 } items hex
  rw [h0]
  simp only []
  rw [setPurchaseTotal_append hfresh rfl]

theorem record_purchase_ok_fields {db : DB} {now : Int} {sup : Option Nat}
    {items : List (Nat × Int × Rat)} {db2 : DB} {hid : Nat}
    (h : record_purchase db now sup items = .ok (db2, hid)) :
    (∀ it ∈ items, (getProduct db.products it.1).isSome) ∧
    hid = db.next_purchase_id ∧
    db2.products = db.products.map (fun p =>
      { p with quantity := p.quantity + lineQty p.id items,
               purchase_price := (lastCost p.id items).getD p.purchase_price }) ∧
    db2.movements = db.movements ++
      items.map (fun it =>
        ⟨it.1, it.2.1, "IN", "Purchase #" ++ toString db.next_purchase_id⟩) ∧
    db2.next_product_id = db.next_product_id := by
  rw [record_purchase] at h
  by_cases hsup : supplierMissing db sup
  · simp only [hsup, if_true] at h
    exact absurd h (by simp)
  · simp only [eq_false_of_ne_true hsup, Bool.false_eq_true, if_false] at h
    cases hloop : purchaseLoop db.next_purchase_id { db with
        purchases := db.purchases ++ [⟨db.next_purchase_id, sup, now, 0⟩],
        next_purchase_id := db.next_purchase_id + 1 } items with
    | error e => rw [hloop] at h; exact absurd h (by simp)
    | ok y =>
      obtain ⟨db1, t⟩ := y
      have hex2 : ∀ it ∈ items, (getProduct db.products it.1).isSome := by
        have h2 := purchaseLoop_exists_of_ok hloop
        simpa using h2
      have h0 := purchaseLoop_ok db.next_purchase_id { db with
          purchases := db.purchases ++ [⟨db.next_purchase_id, sup, now, 0⟩],
          next_purchase_id := db.next_purchase_id + 1 } items hex2
      rw [hloop] at h0
      injection h0 with h0
      injection h0 with hdb1 ht
      rw [hloop] at h
      simp only [] at h
      injection h with h
      injection h with hdb2 hhid
      subst hdb2
      refine ⟨hex2, hhid.symm, ?_, ?_, ?_⟩
      all_goals rw [hdb1]

/-! ## Operation sequences for the movement-audit invariant -/

/-- One invocation of a quantity-touching service entry point
(product update is deliberately absent: it bypasses the movement log). -/
inductive Op where
  | addProduct (name sku : String) (category_id : Option Nat) (description : String)
      (purchase_price selling_price : Rat) (quantity min_quantity : Int)
  | purchase (now : Int) (supplier_id : Option Nat) (items : List (Nat × Int × Rat))
  | sale (now : Int) (customer_id : Option Nat) (payment_method : String)
      (items : List (Nat × Int × Rat))
  | adjust (product_id : Nat) (quantity_delta : Int) (note : String)

/-- Run one operation; a failed operation leaves the state unchanged
(the source rolls the transaction back or returns `False`). -/
def applyOp (db : DB) : Op → DB
  | .addProduct n s c d pp sp q mq => (add_product db n s c d pp sp q mq).getD db
  | .purchase now sup items =>
    match record_purchase db now sup items with
    | .ok (db2, _) => db2
    | .error _ => db
  | .sale now c pm items =>
    match record_sale db now c pm items with
    | .ok (db2, _) => db2
    | .error _ => db
  | .adjust pid delta note =>
    match adjust_stock db pid delta note with
    | .ok db2 => db2
    | .error _ => db

/-- Run a sequence of operations left to right. -/
def runOps (db : DB) : List Op → DB
  | [] => db
  | op :: ops => runOps (applyOp db op) ops

/-- Schema well-formedness carried through every operation: AUTOINCREMENT
product ids bound the ids in `products` and `stock_movements`, and the
movement log accounts for every product's quantity. -/
def WF (db : DB) : Prop :=
  (∀ p ∈ db.products, p.id < db.next_product_id) ∧
  (∀ m ∈ db.movements, m.product_id < db.next_product_id) ∧
  movementsConsistent db

instance (db : DB) : Decidable (WF db) := by
  unfold WF
  infer_instance

theorem WF_add_product {db : DB} {n s : String} {c : Option Nat} {d : String}
    {pp sp : Rat} {q mq : Int} {db2 : DB}
    (hwf : WF db) (h : add_product db n s c d pp sp q mq = some db2) : WF db2 := by
  obtain ⟨hpb, hmb, hcons⟩ := hwf
  rw [add_product] at h
  split at h
  · exact absurd h (by simp)
  · split at h
    · exact absurd h (by simp)
    · split at h
      next hq =>
        injection h with h
        subst h
        refine ⟨?_, ?_, ?_⟩
        · intro p hp
          rcases List.mem_append.mp hp with hp | hp
          · exact Nat.lt_succ_of_lt (hpb p hp)
          · simp at hp
            subst hp
            exact Nat.lt_succ_self _
        · intro m hm
          rcases List.mem_append.mp hm with hm | hm
          · exact Nat.lt_succ_of_lt (hmb m hm)
          · simp at hm
            subst hm
            exact Nat.lt_succ_self _
        · intro p hp
          rcases List.mem_append.mp hp with hp | hp
          · have hne : db.next_product_id ≠ p.id :=
              fun he => Nat.ne_of_lt (hpb p hp) he.symm
            rw [sumDeltas_append]
            have hz : sumDeltas p.id
                [(⟨db.next_product_id, q, "IN", "Initial stock"⟩ : Movement)] = 0 := by
              simp [sumDeltas, hne]
            rw [hz, add_zero]
            exact hcons p hp
          · simp at hp
            subst hp
            rw [sumDeltas_append]
            have hz : sumDeltas db.next_product_id db.movements = 0 :=
              sumDeltas_eq_zero (fun m hm => Nat.ne_of_lt (hmb m hm))
            simp [hz, sumDeltas]
      next hq =>
        injection h with h
        subst h
        refine ⟨?_, ?_, ?_⟩
        · intro p hp
          rcases List.mem_append.mp hp with hp | hp
          · exact Nat.lt_succ_of_lt (hpb p hp)
          · simp at hp
            subst hp
            exact Nat.lt_succ_self _
        · intro m hm
          exact Nat.lt_succ_of_lt (hmb m hm)
        · intro p hp
          rcases List.mem_append.mp hp with hp | hp
          · exact hcons p hp
          · simp at hp
            subst hp
            have hz : sumDeltas db.next_product_id db.movements = 0 :=
              sumDeltas_eq_zero (fun m hm => Nat.ne_of_lt (hmb m hm))
            simpa [hz] using not_not.mp hq

theorem WF_record_purchase {db : DB} {now : Int} {sup : Option Nat}
    {items : List (Nat × Int × Rat)} {db2 : DB} {hid : Nat}
    (hwf : WF db) (h : record_purchase db now sup items = .ok (db2, hid)) :
    WF db2 := by
  obtain ⟨hpb, hmb, hcons⟩ := hwf
  obtain ⟨hex, _, hprod, hmov, hnext⟩ := record_purchase_ok_fields h
  refine ⟨?_, ?_, ?_⟩
  · intro p hp
    rw [hprod] at hp
    obtain ⟨p0, hp0, rfl⟩ := List.mem_map.mp hp
    rw [hnext]
    exact hpb p0 hp0
  · intro m hm
    rw [hmov] at hm
    rw [hnext]
    rcases List.mem_append.mp hm with hm | hm
    · exact hmb m hm
    · obtain ⟨it, hit, rfl⟩ := List.mem_map.mp hm
      obtain ⟨p0, hp0, hpid⟩ := getProduct_isSome (hex it hit)
      exact hpid ▸ hpb p0 hp0
  · intro p hp
    rw [hprod] at hp
    obtain ⟨p0, hp0, rfl⟩ := List.mem_map.mp hp
    rw [hmov, sumDeltas_append, sumDeltas_map_pos]
    simp only []
    rw [← hcons p0 hp0]

theorem WF_record_sale {db : DB} {now : Int} {c : Option Nat} {pm : String}
    {items : List (Nat × Int × Rat)} {db2 : DB} {sid : Nat}
    (hwf : WF db) (h : record_sale db now c pm items = .ok (db2, sid)) :
    WF db2 := by
  obtain ⟨hpb, hmb, hcons⟩ := hwf
  obtain ⟨hchk, _, hprod, hmov, hnext⟩ := record_sale_ok_fields h
  have hbound := checkStock_ok_bound hchk
  refine ⟨?_, ?_, ?_⟩
  · intro p hp
    rw [hprod] at hp
    obtain ⟨p0, hp0, rfl⟩ := List.mem_map.mp hp
    rw [hnext]
    exact hpb p0 hp0
  · intro m hm
    rw [hmov] at hm
    rw [hnext]
    rcases List.mem_append.mp hm with hm | hm
    · exact hmb m hm
    · obtain ⟨it, hit, rfl⟩ := List.mem_map.mp hm
      obtain ⟨p0, hg, _⟩ := hbound it hit
      obtain ⟨hp0, hpid⟩ := getProduct_some hg
      exact hpid ▸ hpb p0 hp0
  · intro p hp
    rw [hprod] at hp
    obtain ⟨p0, hp0, rfl⟩ := List.mem_map.mp hp
    rw [hmov, sumDeltas_append, sumDeltas_map_neg]
    simp only []
    rw [← hcons p0 hp0]
    ring

theorem WF_adjust_stock {db : DB} {pid : Nat} {delta : Int} {note : String}
    {db2 : DB} (hwf : WF db) (h : adjust_stock db pid delta note = .ok db2) :
    WF db2 := by
  obtain ⟨hpb, hmb, hcons⟩ := hwf
  rw [adjust_stock] at h
  cases hg : getProduct db.products pid with
  | none => rw [hg] at h; exact absurd h (by simp)
  | some p0 =>
    rw [hg] at h
    injection h with h
    subst h
    obtain ⟨hp0, hpid⟩ := getProduct_some hg
    refine ⟨?_, ?_, ?_⟩
    · intro p hp
      obtain ⟨p1, hp1, rfl⟩ := List.mem_map.mp hp
      by_cases he : p1.id = pid
      · simpa [he] using he ▸ hpb p1 hp1
      · simpa [he] using hpb p1 hp1
    · intro m hm
      rcases List.mem_append.mp hm with hm | hm
      · exact hmb m hm
      · simp at hm
        subst hm
        exact hpid ▸ hpb p0 hp0
    · intro p hp
      obtain ⟨p1, hp1, rfl⟩ := List.mem_map.mp hp
      rw [sumDeltas_append]
      by_cases he : p1.id = pid
      · simp only [if_pos he]
        show p1.quantity + delta =
          sumDeltas p1.id db.movements +
            sumDeltas p1.id [(⟨pid, delta, "ADJUST", note⟩ : Movement)]
        have hs : sumDeltas p1.id
            [(⟨pid, delta, "ADJUST", note⟩ : Movement)] = delta := by
          simp [sumDeltas, he.symm]
        rw [hs, ← hcons p1 hp1]
      · have hne : pid ≠ p1.id := fun hx => he hx.symm
        have hs : sumDeltas p1.id
            [(⟨pid, delta, "ADJUST", note⟩ : Movement)] = 0 := by
          simp [sumDeltas, hne]
        simp only [if_neg he]
        rw [hs, add_zero]
        exact hcons p1 hp1

theorem WF_applyOp (db : DB) (op : Op) (hwf : WF db) : WF (applyOp db op) := by
  cases op with
  | addProduct n s c d pp sp q mq =>
    rw [applyOp]
    cases hadd : add_product db n s c d pp sp q mq with
    | none => simpa using hwf
    | some db2 => simpa using WF_add_product hwf hadd
  | purchase now sup items =>
    rw [applyOp]
    cases hp : record_purchase db now sup items with
    | error e => exact hwf
    | ok y =>
      obtain ⟨db2, hid⟩ := y
      exact WF_record_purchase hwf hp
  | sale now c pm items =>
    rw [applyOp]
    cases hs : record_sale db now c pm items with
    | error e => exact hwf
    | ok y =>
      obtain ⟨db2, sid⟩ := y
      exact WF_record_sale hwf hs
  | adjust pid delta note =>
    rw [applyOp]
    cases ha : adjust_stock db pid delta note with
    | error e => exact hwf
    | ok db2 => exact WF_adjust_stock hwf ha

theorem WF_runOps (db : DB) (ops : List Op) (hwf : WF db) : WF (runOps db ops) := by
  induction ops generalizing db with
  | nil => exact hwf
  | cons op ops ih => exact ih (applyOp db op) (WF_applyOp db op hwf)

/-! ## Concrete states used by witnesses and counterexamples -/

/-- A freshly initialized database (`init_db` over an empty file). -/
def dbEmpty : DB := ⟨[], [], [], [], [], [], [], [], [], 1, 1, 1⟩

/-- An inventory with two products (P: qty 10/min 5, Q: qty 10/min 2),
one supplier (id 7) and one customer (id 8). -/
def dbSeed : DB := { dbEmpty with
  products := [⟨1, "P", "SKU-P", none, "", 2, 3, 10, 5⟩,
               ⟨2, "Q", "SKU-Q", none, "", 1, 2, 10, 2⟩],
  suppliers := [7],
  customers := [8],
  next_product_id := 3 }

/-- The committed state of a sale, `none` when the sale raised. -/
def saleResult (db : DB) (now : Int) (c : Option Nat) (pm : String)
    (items : List (Nat × Int × Rat)) : Option DB :=
  match record_sale db now c pm items with
  | .ok (db2, _) => some db2
  | .error _ => none

/-- State after `record_sale(8, "cash", [(1, 3, 9)])` on `dbSeed`
(the spec's Scenario A with a whole-number unit price). -/
def dbC6w : DB := { dbSeed with
  products := [⟨1, "P", "SKU-P", none, "", 2, 3, 7, 5⟩,
               ⟨2, "Q", "SKU-Q", none, "", 1, 2, 10, 2⟩],
  movements := [⟨1, -3, "OUT", "Sale #1"⟩],
  sales := [⟨1, some 8, 0, "cash", 27⟩],
  sale_lines := [⟨1, 1, 3, 9⟩],
  next_sale_id := 2 }

/-! ## C1 -/

/-- C1, counterexample: the claimed invariant "after every successful
`record_sale` every quantity is ≥ 0, for every line list including lists
with several lines for the same product" is false.  On `dbSeed` (all
quantities 10, hence non-negative) the sale `[(1, 6, 1), (1, 6, 1)]`
passes validation — each line is checked against the pre-sale quantity
10 — and commits, leaving product 1 at quantity −2. -/
theorem C1_counterexample :
    allNonneg dbSeed ∧
    (saleResult dbSeed 0 (some 8) "cash" [(1, 6, 1), (1, 6, 1)]).map
      (fun db2 => db2.products.map (fun p => p.quantity)) = some [-2, 10] :=
  ⟨by decide, by decide⟩

/-- C1 (amended): starting from any state whose product ids are distinct
(primary key) and whose quantities are all non-negative, a successful
`record_sale` leaves every quantity non-negative **provided no product id
occurs in more than one line**; with duplicate lines each line is
validated against the pre-sale quantity only, so the cumulative decrement
may drive the quantity negative (see the counterexample).  A sale that
fails validation raises and commits nothing. -/
theorem C1_sale_nonneg (db : DB) (now : Int) (c : Option Nat) (pm : String)
    (items : List (Nat × Int × Rat)) (db2 : DB) (sid : Nat)
    (hids : (db.products.map (fun p => p.id)).Nodup)
    (h0 : allNonneg db)
    (hnd : (items.map (fun it => it.1)).Nodup)
    (hok : record_sale db now c pm items = .ok (db2, sid)) :
    allNonneg db2 := by
  obtain ⟨hchk, _, hprod, _, _⟩ := record_sale_ok_fields hok
  intro p2 hp2
  rw [hprod] at hp2
  obtain ⟨p, hp, rfl⟩ := List.mem_map.mp hp2
  show 0 ≤ p.quantity - lineQty p.id items
  by_cases hin : ∃ it ∈ items, it.1 = p.id
  · obtain ⟨it, hitm, hit1⟩ := hin
    have hq : lineQty p.id items = it.2.1 := lineQty_of_nodup hnd hitm hit1
    obtain ⟨q, hgq, hle⟩ := checkStock_ok_bound hchk it hitm
    rw [hit1] at hgq
    rw [getProduct_of_mem_nodup hids hp] at hgq
    injection hgq with hgq
    subst hgq
    rw [hq]
    omega
  · push_neg at hin
    rw [lineQty_eq_zero hin, sub_zero]
    exact h0 p hp

/-- C1 witness: the Scenario A sale on `dbSeed` commits and every
resulting quantity is non-negative. -/
theorem C1_witness : allNonneg dbC6w :=
  C1_sale_nonneg dbSeed 0 (some 8) "cash" [(1, 3, 9)] dbC6w 1
    (by decide) (by decide) (by decide) (by with_unfolding_all rfl)

/-! ## C2 -/

/-- C2: `record_sale` is validate-before-mutate and all-or-nothing.  When
some line fails the stock check (`offendingLine` finds the first line
whose product is missing or has on-hand quantity below the requested
quantity), the whole call evaluates to the `ValueError` naming that
line's product id; in this embedding an `error` result carries no state,
exactly as the source's rolled-back transaction commits no header, line,
movement, or quantity change — including for lines that individually
would have passed. -/
theorem C2_sale_all_or_nothing (db : DB) (now : Int) (c : Option Nat)
    (pm : String) (items : List (Nat × Int × Rat)) (it0 : Nat × Int × Rat)
    (h : offendingLine db items = some it0) :
    it0 ∈ items ∧ failsAt db it0 = true ∧
    record_sale db now c pm items =
      .error ("Insufficient stock for product id " ++ toString it0.1) := by
  obtain ⟨hm, hf, hcs⟩ := checkStock_error_of_offending h
  refine ⟨hm, hf, ?_⟩
  rw [record_sale, hcs]

/-- C2 witness: on `dbSeed`, a two-line sale whose second line requests 99
units of product 2 (on hand: 10) is rejected as a whole, naming product 2. -/
theorem C2_witness :
    ((2 : Nat), (99 : Int), (1 : Rat)) ∈
      [((1 : Nat), (3 : Int), (1 : Rat)), (2, 99, 1)] ∧
    failsAt dbSeed (2, 99, 1) = true ∧
    record_sale dbSeed 0 (some 8) "cash" [(1, 3, 1), (2, 99, 1)] =
      .error ("Insufficient stock for product id " ++
        toString ((2 : Nat), (99 : Int), (1 : Rat)).1) :=
  C2_sale_all_or_nothing dbSeed 0 (some 8) "cash" _ _ rfl

/-- State after `record_purchase(None, [])` on `dbSeed`: a header with
total 0 and nothing else. -/
def dbC3p : DB := { dbSeed with
  purchases := [⟨1, none, 0, 0⟩],
  next_purchase_id := 2 }

/-! ## C3 -/

/-- C3, counterexample: the claimed `InvalidArgument` rejection does not
exist in the code.  `record_purchase` with an **empty** line list is
accepted: it inserts a purchase header (state change, no error) and
returns its id.  A sale line with **negative** quantity is also accepted:
`quantity < qty` is false for negative `qty`, so the line passes the
stock check and `quantity = quantity - (-5)` *increases* stock to 15. -/
theorem C3_counterexample :
    record_purchase dbSeed 0 none [] = .ok (dbC3p, 1) ∧
    dbC3p.purchases = [⟨1, none, 0, 0⟩] ∧ dbSeed.purchases = [] ∧
    (saleResult dbSeed 0 (some 8) "cash" [(1, -5, 1)]).map
      (fun db2 => db2.products.map (fun p => p.quantity)) = some [15, 10] :=
  ⟨by decide, by decide, by decide, by decide⟩

/-- C3 (amended): the transaction entry points perform **no** argument
validation.  An empty line list is accepted rather than rejected: the only
effect is a new header with total 0 (`record_purchase` returns its id,
`record_sale` passes the vacuous stock check and does the same).
Non-positive quantities and negative prices flow through the same
arithmetic as any other line (see the counterexample, where a sale of
quantity −5 increases stock). -/
theorem C3_no_argument_validation (db : DB) (now : Int) (sup c : Option Nat)
    (pm : String)
    (hs : supplierMissing db sup = false)
    (hc : customerMissing db c = false)
    (hfp : ∀ x ∈ db.purchases, x.id ≠ db.next_purchase_id)
    (hfs : ∀ s ∈ db.sales, s.id ≠ db.next_sale_id) :
    record_purchase db now sup [] =
      .ok ({ db with
        purchases := db.purchases ++ [⟨db.next_purchase_id, sup, now, 0⟩],
        next_purchase_id := db.next_purchase_id + 1 }, db.next_purchase_id) ∧
    record_sale db now c pm [] =
      .ok ({ db with
        sales := db.sales ++ [⟨db.next_sale_id, c, now, pm, 0⟩],
        next_sale_id := db.next_sale_id + 1 }, db.next_sale_id) := by
  constructor
  · have h := record_purchase_eq db now sup [] hs (by simp) hfp
    simpa [lineQty, lastCost, linesTotal] using h
  · have h := record_sale_eq db now c pm [] rfl hc hfs
    simpa [lineQty, linesTotal] using h

/-- State after `record_purchase(7, [])` on `dbSeed`. -/
def dbC3w1 : DB := { dbSeed with
  purchases := [⟨1, some 7, 0, 0⟩],
  next_purchase_id := 2 }

/-- State after `record_sale(None, "cash", [])` on `dbSeed`. -/
def dbC3w2 : DB := { dbSeed with
  sales := [⟨1, none, 0, "cash", 0⟩],
  next_sale_id := 2 }

/-- C3 witness: both entry points accept an empty line list on `dbSeed`. -/
theorem C3_witness :
    record_purchase dbSeed 0 (some 7) [] = .ok (dbC3w1, 1) ∧
    record_sale dbSeed 0 none "cash" [] = .ok (dbC3w2, 1) := by
  with_unfolding_all exact
    (C3_no_argument_validation dbSeed 0 (some 7) none "cash" rfl rfl
      (by decide) (by decide))

/-! ## C4 -/

/-- State after `add_product("P", ..., quantity=5)` on an empty database. -/
def dbC4 : DB := { dbEmpty with
  products := [⟨1, "P", "SKU-P", none, "", 2, 3, 5, 0⟩],
  movements := [⟨1, 5, "IN", "Initial stock"⟩],
  next_product_id := 2 }

/-- C4, counterexample: the invariant as stated — movement deltas sum to
current quantity **minus the quantity immediately after creation** — is
already false immediately after `add_product` with a nonzero starting
quantity: the code logs the whole starting quantity as an "Initial stock"
movement, so the sum is 5 while `current − after-creation = 5 − 5 = 0`.
(`update_product`, also named by the claim, breaks it too by rewriting
quantity with no movement; see C9.) -/
theorem C4_counterexample :
    add_product dbEmpty "P" "SKU-P" none "" 2 3 5 0 = some dbC4 ∧
    getProduct dbC4.products 1 = some ⟨1, "P", "SKU-P", none, "", 2, 3, 5, 0⟩ ∧
    sumDeltas 1 dbC4.movements = 5 ∧ ¬((5 : Int) - 5 = 5) :=
  ⟨by with_unfolding_all rfl, by with_unfolding_all rfl, by decide, by decide⟩

/-- C4 (amended): with `update_product` excluded and the baseline taken as
zero (a product's creation stock is itself logged as its "Initial stock"
movement), the audit invariant holds: over every sequence of
`add_product`, `record_purchase`, `record_sale`, and `adjust_stock`
operations from a well-formed state, every product's current quantity
equals the signed sum of its recorded movement deltas. -/
theorem C4_movement_audit (db : DB) (ops : List Op) (hwf : WF db) :
    movementsConsistent (runOps db ops) :=
  (WF_runOps db ops hwf).2.2

/-- Master data only: one supplier (7) and one customer (8). -/
def dbMaster : DB := { dbEmpty with suppliers := [7], customers := [8] }

/-- A creation, an adjustment, a purchase and a sale on product 1. -/
def opsC4 : List Op :=
  [.addProduct "P" "SKU-P" none "" 2 3 5 0,
   .adjust 1 (-2) "damage",
   .purchase 0 (some 7) [(1, 4, 6)],
   .sale 0 (some 8) "cash" [(1, 3, 9)]]

/-- C4 witness: the audit invariant after a concrete operation sequence. -/
theorem C4_movement_audit_witness : movementsConsistent (runOps dbMaster opsC4) :=
  C4_movement_audit dbMaster opsC4 (by decide)

/-! ## C5 -/

/-- C5: for a non-empty line list over existing products (and a resolvable
supplier and fresh header id), `record_purchase` inserts one purchase-line
row per line in input order, adds `lineQty` to each touched product's
quantity, overwrites its purchase price with the **last** referencing
line's unit cost (`lastCost`, last-write-wins), appends one `IN` movement
of `+qty` per line citing the header, stores `linesTotal` (the sum of
`qty × price`) on the header, and returns the header id. -/
theorem C5_purchase_applies_lines (db : DB) (now : Int) (sup : Option Nat)
    (items : List (Nat × Int × Rat))
    (_hne : items ≠ [])
    (hsup : supplierMissing db sup = false)
    (hex : ∀ it ∈ items, (getProduct db.products it.1).isSome)
    (hfresh : ∀ x ∈ db.purchases, x.id ≠ db.next_purchase_id) :
    record_purchase db now sup items =
      .ok ({ db with
        purchases := db.purchases ++
          [⟨db.next_purchase_id, sup, now, linesTotal items⟩],
        purchase_lines := db.purchase_lines ++
          items.map (fun it => ⟨db.next_purchase_id, it.1, it.2.1, it.2.2⟩),
        products := db.products.map (fun p =>
          { p with quantity := p.quantity + lineQty p.id items,
                   purchase_price := (lastCost p.id items).getD p.purchase_price }),
        movements := db.movements ++
          items.map (fun it =>
            ⟨it.1, it.2.1, "IN", "Purchase #" ++ toString db.next_purchase_id⟩),
        next_purchase_id := db.next_purchase_id + 1 },
      db.next_purchase_id) :=
  record_purchase_eq db now sup items hsup hex hfresh

/-- State after `record_purchase(7, [(1,4,7), (2,2,3), (1,5,8)])` on
`dbSeed`: product 1 is bought twice, its price ends at 8 (last write),
its quantity at 10+4+5; the header total is 4·7+2·3+5·8 = 74. -/
def dbC5w : DB := { dbSeed with
  products := [⟨1, "P", "SKU-P", none, "", 8, 3, 19, 5⟩,
               ⟨2, "Q", "SKU-Q", none, "", 3, 2, 12, 2⟩],
  movements := [⟨1, 4, "IN", "Purchase #1"⟩, ⟨2, 2, "IN", "Purchase #1"⟩,
                ⟨1, 5, "IN", "Purchase #1"⟩],
  purchases := [⟨1, some 7, 0, 74⟩],
  purchase_lines := [⟨1, 1, 4, 7⟩, ⟨1, 2, 2, 3⟩, ⟨1, 1, 5, 8⟩],
  next_purchase_id := 2 }

/-- C5 witness: the three-line purchase above, with last-write-wins on
product 1's purchase price. -/
theorem C5_witness :
    record_purchase dbSeed 0 (some 7) [(1, 4, 7), (2, 2, 3), (1, 5, 8)] =
      .ok (dbC5w, 1) := by
  with_unfolding_all exact
    (C5_purchase_applies_lines dbSeed 0 (some 7) [(1, 4, 7), (2, 2, 3), (1, 5, 8)]
      (by decide) rfl (by decide) (by decide))

/-! ## C6 -/

/-- C6: for a sale whose validation phase succeeds (and a resolvable
customer and fresh header id), `record_sale` creates the sale header,
inserts one sale-line row per line, subtracts `lineQty` from each touched
product's quantity while leaving `purchase_price` (and every other column)
untouched, appends one `OUT` movement of `-qty` per line citing the
header, stores `linesTotal` (the sum of `qty × price`) on the header and
returns the header id. -/
theorem C6_sale_applies_lines (db : DB) (now : Int) (c : Option Nat)
    (pm : String) (items : List (Nat × Int × Rat))
    (hchk : checkStock db items = .ok ())
    (hcust : customerMissing db c = false)
    (hfresh : ∀ s ∈ db.sales, s.id ≠ db.next_sale_id) :
    record_sale db now c pm items =
      .ok ({ db with
        sales := db.sales ++ [⟨db.next_sale_id, c, now, pm, linesTotal items⟩],
        sale_lines := db.sale_lines ++
          items.map (fun it => ⟨db.next_sale_id, it.1, it.2.1, it.2.2⟩),
        products := db.products.map (fun p =>
          { p with quantity := p.quantity - lineQty p.id items }),
        movements := db.movements ++
          items.map (fun it =>
            ⟨it.1, -it.2.1, "OUT", "Sale #" ++ toString db.next_sale_id⟩),
        next_sale_id := db.next_sale_id + 1 },
      db.next_sale_id) :=
  record_sale_eq db now c pm items hchk hcust hfresh

/-- C6 witness (the spec's Scenario A with a whole-number price):
`record_sale(8, "cash", [(1, 3, 9)])` on `dbSeed` leaves product 1 at
quantity 7, records one OUT movement of −3, and stores header total 27. -/
theorem C6_witness :
    record_sale dbSeed 0 (some 8) "cash" [(1, 3, 9)] = .ok (dbC6w, 1) := by
  with_unfolding_all exact
    (C6_sale_applies_lines dbSeed 0 (some 8) "cash" [(1, 3, 9)]
      rfl rfl (by decide))

/-! ## C7 -/

/-- C7: `low_stock` returns exactly the products with
`quantity ≤ min_quantity` — it is a permutation of that filter, hence no
product appears that does not satisfy the predicate and none satisfying it
is missing — ordered ascending by quantity. -/
theorem C7_low_stock (db : DB) :
    (low_stock db).Perm
      (db.products.filter (fun p => p.quantity ≤ p.min_quantity)) ∧
    (low_stock db).Sorted (fun a b => a.quantity ≤ b.quantity) ∧
    (∀ p, p ∈ low_stock db ↔ p ∈ db.products ∧ p.quantity ≤ p.min_quantity) := by
  refine ⟨List.mergeSort_perm _ _, ?_, ?_⟩
  · rw [low_stock]
    refine List.Pairwise.imp ?_ (List.sorted_mergeSort ?_ ?_
      (db.products.filter (fun p => p.quantity ≤ p.min_quantity)))
    · intro a b h
      exact of_decide_eq_true h
    · intro a b c h1 h2
      exact decide_eq_true
        (le_trans (of_decide_eq_true h1) (of_decide_eq_true h2))
    · intro a b
      rcases le_total a.quantity b.quantity with h | h
      · simp [h]
      · simp [h]
  · intro p
    rw [low_stock]
    simp [List.mem_filter]

/-! ## C9 -/

/-- C9: `update_product` writes the nine supplied columns straight onto the
matching row and never touches the movement log.  A failing update
(duplicate sku, dangling category) raises with nothing committed, which in
this embedding is the stateless `error` branch; on success the movement
table is unchanged even when the new quantity differs from the old. -/
theorem C9_update_product_frame (db : DB) (product_id : Nat)
    (name sku : String) (category_id : Option Nat) (description : String)
    (purchase_price selling_price : Rat) (quantity min_quantity : Int)
    (db2 : DB)
    (h : update_product db product_id name sku category_id description
        purchase_price selling_price quantity min_quantity = .ok db2) :
    db2.movements = db.movements ∧
    db2.products = db.products.map (fun p =>
      if p.id = product_id then
        ⟨product_id, name, sku, category_id, description, purchase_price,
         selling_price, quantity, min_quantity⟩
      else p) := by
  rw [update_product] at h
  split at h
  · exact absurd h (by simp)
  · split at h
    · exact absurd h (by simp)
    · injection h with h
      subst h
      exact ⟨rfl, rfl⟩

/-- State after `update_product(1, "P2", ..., quantity=42)` on `dbSeed`:
all columns of product 1 rewritten, movement log still empty. -/
def dbC9w : DB := { dbSeed with
  products := [⟨1, "P2", "SKU-P2", none, "d", 4, 5, 42, 6⟩,
               ⟨2, "Q", "SKU-Q", none, "", 1, 2, 10, 2⟩] }

/-- C9 witness: a quantity-changing update on `dbSeed` leaves the movement
log unchanged and rewrites the row. -/
theorem C9_witness :
    dbC9w.movements = dbSeed.movements ∧
    dbC9w.products = dbSeed.products.map (fun p =>
      if p.id = 1 then
        ⟨1, "P2", "SKU-P2", none, "d", 4, 5, 42, 6⟩
      else p) := by
  with_unfolding_all exact
    (C9_update_product_frame dbSeed 1 "P2" "SKU-P2" none "d" 4 5 42 6 dbC9w rfl)

/-! ## C10 -/

/-- C10: a successful `add_product` appends exactly one movement — kind IN,
delta equal to the starting quantity, note "Initial stock", for the new
row's id — when the starting quantity is nonzero (Python truthiness of
`if quantity:`), and appends no movement when it is zero. -/
theorem C10_add_product_movement (db : DB) (name sku : String)
    (category_id : Option Nat) (description : String)
    (purchase_price selling_price : Rat) (quantity min_quantity : Int)
    (db2 : DB)
    (h : add_product db name sku category_id description purchase_price
        selling_price quantity min_quantity = some db2) :
    (quantity ≠ 0 →
      db2.movements = db.movements ++
        [⟨db.next_product_id, quantity, "IN", "Initial stock"⟩]) ∧
    (quantity = 0 → db2.movements = db.movements) := by
  rw [add_product] at h
  split at h
  · exact absurd h (by simp)
  · split at h
    · exact absurd h (by simp)
    · split at h
      next hq =>
        injection h with h
        subst h
        exact ⟨fun _ => rfl, fun h0 => absurd h0 hq⟩
      next hq =>
        injection h with h
        subst h
        exact ⟨fun hne => absurd (not_not.mp hq) hne, fun _ => rfl⟩

/-- State after `add_product("R", ..., quantity=5)` on `dbSeed`. -/
def dbC10w : DB := { dbSeed with
  products := [⟨1, "P", "SKU-P", none, "", 2, 3, 10, 5⟩,
               ⟨2, "Q", "SKU-Q", none, "", 1, 2, 10, 2⟩,
               ⟨3, "R", "SKU-R", none, "", 1, 1, 5, 1⟩],
  movements := [⟨3, 5, "IN", "Initial stock"⟩],
  next_product_id := 4 }

/-- C10 witness: creating product 3 with starting quantity 5 on `dbSeed`
appends exactly the one "Initial stock" movement. -/
theorem C10_witness :
    (5 : Int) ≠ 0 ∧
    dbC10w.movements = dbSeed.movements ++ [⟨3, 5, "IN", "Initial stock"⟩] :=
  ⟨by decide,
   (C10_add_product_movement dbSeed "R" "SKU-R" none "" 1 1 5 1 dbC10w
      (by with_unfolding_all rfl)).1 (by decide)⟩

/-! ## C8 -/

theorem sortedDates_sorted (l : List Int) :
    ((l.dedup).mergeSort (fun a b => a ≤ b)).Sorted (fun a b => a < b) := by
  have hnd : ((l.dedup).mergeSort (fun a b => a ≤ b)).Nodup :=
    (List.mergeSort_perm l.dedup (fun a b => a ≤ b)).nodup_iff.mpr
      (List.nodup_dedup l)
  have hle : ((l.dedup).mergeSort (fun a b => a ≤ b)).Sorted (fun a b => a ≤ b) := by
    refine List.Pairwise.imp ?_ (List.sorted_mergeSort ?_ ?_ l.dedup)
    · intro a b h
      exact of_decide_eq_true h
    · intro a b c h1 h2
      exact decide_eq_true
        (le_trans (of_decide_eq_true h1) (of_decide_eq_true h2))
    · intro a b
      rcases le_total a b with h | h <;> simp [h]
  exact hle.lt_of_le hnd

theorem mem_sortedDates {l : List Int} {d : Int} :
    d ∈ (l.dedup).mergeSort (fun a b => a ≤ b) ↔ d ∈ l := by
  rw [List.mem_mergeSort, List.mem_dedup]

theorem sales_totals_spec (db : DB) (now days : Int) :
    ((sales_totals db now days).map Prod.fst).Sorted (fun a b => a < b) ∧
    (∀ d : Int, d ∈ (sales_totals db now days).map Prod.fst ↔
      ∃ s ∈ db.sales, now - days ≤ s.date ∧ s.date = d) ∧
    (∀ d t, (d, t) ∈ sales_totals db now days →
      t = sumSaleTotals ((db.sales.filter (fun s => now - days ≤ s.date)).filter
        (fun s => s.date = d))) := by
  have hfst : (sales_totals db now days).map Prod.fst =
      (((db.sales.filter (fun s => now - days ≤ s.date)).map
        (fun s => s.date)).dedup).mergeSort (fun a b => a ≤ b) := by
    simp only [sales_totals, List.map_map]
    exact List.map_id'' (fun d => rfl) _
  refine ⟨?_, ?_, ?_⟩
  · rw [hfst]
    exact sortedDates_sorted _
  · intro d
    rw [hfst, mem_sortedDates]
    constructor
    · intro hd
      obtain ⟨s, hs, rfl⟩ := List.mem_map.mp hd
      have hsf := List.mem_filter.mp hs
      exact ⟨s, hsf.1, by simpa using hsf.2, rfl⟩
    · rintro ⟨s, hs, hw, rfl⟩
      exact List.mem_map.mpr ⟨s, List.mem_filter.mpr ⟨hs, by simpa using hw⟩, rfl⟩
  · intro d t hm
    simp only [sales_totals] at hm
    obtain ⟨a, ha, heq⟩ := List.mem_map.mp hm
    have h1 : a = d := congrArg Prod.fst heq
    have h2 := congrArg Prod.snd heq
    simp only [] at h2
    subst h1
    exact h2.symm

theorem purchase_totals_spec (db : DB) (now days : Int) :
    ((purchase_totals db now days).map Prod.fst).Sorted (fun a b => a < b) ∧
    (∀ d : Int, d ∈ (purchase_totals db now days).map Prod.fst ↔
      ∃ h ∈ db.purchases, now - days ≤ h.date ∧ h.date = d) ∧
    (∀ d t, (d, t) ∈ purchase_totals db now days →
      t = sumPurchaseTotals
        ((db.purchases.filter (fun h => now - days ≤ h.date)).filter
          (fun h => h.date = d))) := by
  have hfst : (purchase_totals db now days).map Prod.fst =
      (((db.purchases.filter (fun h => now - days ≤ h.date)).map
        (fun h => h.date)).dedup).mergeSort (fun a b => a ≤ b) := by
    simp only [purchase_totals, List.map_map]
    exact List.map_id'' (fun d => rfl) _
  refine ⟨?_, ?_, ?_⟩
  · rw [hfst]
    exact sortedDates_sorted _
  · intro d
    rw [hfst, mem_sortedDates]
    constructor
    · intro hd
      obtain ⟨s, hs, rfl⟩ := List.mem_map.mp hd
      have hsf := List.mem_filter.mp hs
      exact ⟨s, hsf.1, by simpa using hsf.2, rfl⟩
    · rintro ⟨s, hs, hw, rfl⟩
      exact List.mem_map.mpr ⟨s, List.mem_filter.mpr ⟨hs, by simpa using hw⟩, rfl⟩
  · intro d t hm
    simp only [purchase_totals] at hm
    obtain ⟨a, ha, heq⟩ := List.mem_map.mp hm
    have h1 : a = d := congrArg Prod.fst heq
    have h2 := congrArg Prod.snd heq
    simp only [] at h2
    subst h1
    exact h2.symm

/-- C8: `sales_totals`/`purchase_totals` group the headers whose calendar
date lies in the window `now − days ≤ date` by date, emit exactly one
`(date, summed total)` pair per date that has at least one header (dates
with none are absent: the emitted date list is exactly the dates of
headers in the window), sum `total_amount` per date, and are strictly
ascending by date. -/
theorem C8_daily_totals (db : DB) (now days : Int) :
    (((sales_totals db now days).map Prod.fst).Sorted (fun a b => a < b) ∧
     (∀ d : Int, d ∈ (sales_totals db now days).map Prod.fst ↔
       ∃ s ∈ db.sales, now - days ≤ s.date ∧ s.date = d) ∧
     (∀ d t, (d, t) ∈ sales_totals db now days →
       t = sumSaleTotals ((db.sales.filter (fun s => now - days ≤ s.date)).filter
         (fun s => s.date = d)))) ∧
    (((purchase_totals db now days).map Prod.fst).Sorted (fun a b => a < b) ∧
     (∀ d : Int, d ∈ (purchase_totals db now days).map Prod.fst ↔
       ∃ h ∈ db.purchases, now - days ≤ h.date ∧ h.date = d) ∧
     (∀ d t, (d, t) ∈ purchase_totals db now days →
       t = sumPurchaseTotals
         ((db.purchases.filter (fun h => now - days ≤ h.date)).filter
           (fun h => h.date = d)))) :=
  ⟨sales_totals_spec db now days, purchase_totals_spec db now days⟩
